import Mathlib

/-
Verification of the retrieval core of the ServiceHealthOnboardingAgent
extension: deterministic pseudo-embedding, embedding-index build /
persist / load, cosine similarity search, and the RAG-style event
discovery post-filter.

The TypeScript sources are shallowly embedded as follows:
* JS strings become `List Char` (`Str`).  The code's regex classes
  `[a-z]`, `[A-Z]`, `[a-z0-9]` are ASCII, so character predicates are
  modelled with the ASCII predicates `Char.isLower`, `Char.isUpper`,
  `Char.isDigit`, and `toLowerCase` with the ASCII `Char.toLower`
  (all text that reaches the hash is ASCII alphanumeric by then).
* JS numbers used as counters / dimensions become `Nat`; the final
  floating-point vectors become `List ℝ` (the spec's "within floating
  tolerance" is read as exact real arithmetic).
* The module-level mutable state (`inMemory`, `dims`) becomes an
  explicit `EmbState` value threaded through the operations, and the
  persisted `embeddings.json` file becomes a `DiskState`:
  `none` = no workspace / file absent, `some none` = file present but
  unreadable or unparseable, `some (some f)` = file parses to `f`.
* Fallible operations (`buildEmbeddingIndex` throwing on a missing
  base index, `similaritySearch` throwing when no index is loaded)
  return `Except Str _`.
-/

namespace RHC

/-- Strings as lists of characters. -/
abbrev Str := List Char

/-! ### Text normalizer and pseudo-embedder (pseudo.ts, `pseudoEmbedVector`) -/

/-- One pass of `text.replace(/([a-z])([A-Z])/g, '$1 $2')`: a space is
inserted between every adjacent lowercase-letter / uppercase-letter pair
(the regex consumes two characters per match and a match can never
straddle a previous match, so the global replace is exactly this
pairwise insertion). -/
def camelExpand : Str → Str
  | a :: b :: rest =>
    if a.isLower && b.isUpper then a :: ' ' :: camelExpand (b :: rest)
    else a :: camelExpand (b :: rest)
  | l => l

/-- The separator class `[._-]`. -/
def isSep (c : Char) : Bool := c == '.' || c == '_' || c == '-'

/-- Worker for `collapseSeps`; the flag records whether the previous
character was a separator (in which case the current separator extends
the same run and emits nothing). -/
def collapseSepsAux : Bool → Str → Str
  | _, [] => []
  | prevSep, c :: rest =>
    if isSep c then
      if prevSep then collapseSepsAux true rest
      else ' ' :: collapseSepsAux true rest
    else c :: collapseSepsAux false rest

/-- Source: `text.replace(/[._-]+/g, ' ')`: each maximal run of `.`, `_`, `-`
becomes a single space. -/
def collapseSeps (l : Str) : Str := collapseSepsAux false l

/-- The regex class `\s`, restricted to its ASCII members (space, tab,
line feed, vertical tab, form feed, carriage return). -/
def isSpaceJS (c : Char) : Bool :=
  c == ' ' || c == '\t' || c == '\n' || c == '\x0b' || c == '\x0c' || c == '\r'

/-- A character kept by `replace(/[^a-z0-9\s]/g, ' ')`. -/
def isKept (c : Char) : Bool := c.isLower || c.isDigit || isSpaceJS c

/-- Source: `replace(/[^a-z0-9\s]/g, ' ')`: every character that is not a
lowercase letter, digit or whitespace becomes a space. -/
def stripNonAlnum (l : Str) : Str := l.map (fun c => if isKept c then c else ' ')

/-- The normalization pipeline of `pseudoEmbedVector` (camelCase
expansion, separator collapsing, lowercasing, non-alphanumeric
replacement), producing the string that is then split into tokens. -/
def normalizeText (text : Str) : Str :=
  stripNonAlnum ((collapseSeps (camelExpand text)).map Char.toLower)

/-- Source: `normText.split(/\s+/).filter(Boolean)`: split at whitespace and
drop empty pieces. -/
def tokensOf (l : Str) : List Str :=
  (l.splitOnP isSpaceJS).filter (fun t => !t.isEmpty)

/-- One step of the rolling hash `h = (h * 31 + tok.charCodeAt(i)) >>> 0`
(unsigned 32-bit, i.e. mod 2^32; the code point of an ASCII character
equals its UTF-16 code unit). -/
def hashStep (h : Nat) (c : Char) : Nat := (h * 31 + c.toNat) % 2 ^ 32

/-- The rolling hash of a token, starting from 0. -/
def hashTok (t : Str) : Nat := t.foldl hashStep 0

/-- Source: `v[i] += 1`, a no-op when `i` is out of bounds (which never happens
for `dims > 0` since the index is taken mod `dims`). -/
def bumpAt (v : List Nat) (i : Nat) : List Nat := v.set i (v.getD i 0 + 1)

/-- The integer histogram built by the token loop of
`pseudoEmbedVector`: starting from `new Array(dims).fill(0)`, each
token increments slot `hashTok tok % dims`. -/
def pseudoEmbedCounts (text : Str) (dims : Nat) : List Nat :=
  (tokensOf (normalizeText text)).foldl
    (fun v tok => bumpAt v (hashTok tok % dims)) (List.replicate dims 0)

/-- Source: `let sumSq = 0; for (const x of v) sumSq += x * x`. -/
def sumSq (v : List Nat) : Nat := (v.map (fun x => x * x)).sum

/-- Source: `const inv = sumSq ? 1 / Math.sqrt(sumSq) : 1`. -/
noncomputable def invOf (s : Nat) : ℝ := if s ≠ 0 then 1 / Real.sqrt s else 1

/-- Source: `pseudoEmbedVector` (pseudo.ts lines 4-23): the histogram scaled by
`invOf` of its sum of squares. -/
noncomputable def pseudoEmbedVector (text : Str) (dims : Nat) : List ℝ :=
  (pseudoEmbedCounts text dims).map
    (fun (x : Nat) => (x : ℝ) * invOf (sumSq (pseudoEmbedCounts text dims)))

/-! ### The duplicated pseudo-embedding inside the provider module
(provider.ts lines 29-47): the same algorithm, re-embedded
independently so that its agreement with `pseudoEmbedVector` is a
theorem, not a definition. -/

namespace ProviderCopy

def camelExpand : Str → Str
  | a :: b :: rest =>
    if a.isLower && b.isUpper then a :: ' ' :: camelExpand (b :: rest)
    else a :: camelExpand (b :: rest)
  | l => l

def isSep (c : Char) : Bool := c == '.' || c == '_' || c == '-'

def collapseSepsAux : Bool → Str → Str
  | _, [] => []
  | prevSep, c :: rest =>
    if isSep c then
      if prevSep then collapseSepsAux true rest
      else ' ' :: collapseSepsAux true rest
    else c :: collapseSepsAux false rest

def collapseSeps (l : Str) : Str := collapseSepsAux false l

def isSpaceJS (c : Char) : Bool :=
  c == ' ' || c == '\t' || c == '\n' || c == '\x0b' || c == '\x0c' || c == '\r'

def isKept (c : Char) : Bool := c.isLower || c.isDigit || isSpaceJS c

def stripNonAlnum (l : Str) : Str := l.map (fun c => if isKept c then c else ' ')

def normalizeText (text : Str) : Str :=
  stripNonAlnum ((collapseSeps (camelExpand text)).map Char.toLower)

def tokensOf (l : Str) : List Str :=
  (l.splitOnP isSpaceJS).filter (fun t => !t.isEmpty)

def hashStep (h : Nat) (c : Char) : Nat := (h * 31 + c.toNat) % 2 ^ 32

def hashTok (t : Str) : Nat := t.foldl hashStep 0

def bumpAt (v : List Nat) (i : Nat) : List Nat := v.set i (v.getD i 0 + 1)

def pseudoEmbedCounts (text : Str) (dims : Nat) : List Nat :=
  (tokensOf (normalizeText text)).foldl
    (fun v tok => bumpAt v (hashTok tok % dims)) (List.replicate dims 0)

def sumSq (v : List Nat) : Nat := (v.map (fun x => x * x)).sum

noncomputable def invOf (s : Nat) : ℝ := if s ≠ 0 then 1 / Real.sqrt s else 1

/-- The provider module's own `pseudoEmbedVector` (provider.ts lines
29-47), "duplicated from pseudo.ts to avoid import path resolution edge
case". -/
noncomputable def pseudoEmbedVector (text : Str) (dims : Nat) : List ℝ :=
  (pseudoEmbedCounts text dims).map
    (fun (x : Nat) => (x : ℝ) * invOf (sumSq (pseudoEmbedCounts text dims)))

end ProviderCopy

/-! ### The embedding provider abstraction (provider.ts lines 49-79) -/

/-- The two provider variants selectable through configuration. -/
inductive ProviderKind where
  | localPseudo
  | azureOpenAIStub

/-- Source: `dims = 128` for `LocalPseudoEmbedder`, `dims = 1536` for
`AzureOpenAIStubEmbedder`. -/
def providerDims : ProviderKind → Nat
  | .localPseudo => 128
  | .azureOpenAIStub => 1536

/-- Source: `embed(texts)`: both variants map every text through the provider
module's `pseudoEmbedVector` at their declared dimensionality. -/
noncomputable def providerEmbed (p : ProviderKind) (texts : List Str) : List (List ℝ) :=
  texts.map (fun t => ProviderCopy.pseudoEmbedVector t (providerDims p))

/-- Source: `createEmbedder()`: the `rhc.ai.embeddingProvider` setting selects
the variant; any value other than `azureOpenAI` (default
`local-pseudo`) yields the local variant. -/
def createEmbedder (setting : Str) : ProviderKind :=
  if setting = "azureOpenAI".toList then .azureOpenAIStub else .localPseudo


/-! ### Cosine similarity (embeddings.ts lines 42-49) -/

/-- The `dot` accumulator of the loop in `cosine`: the loop reads the
pairs `(a[i], b[i])` for `i < a.length`; for the equal-length inputs the
claims concern, this pairing is exactly `zipWith`. -/
noncomputable def dotAcc (a b : List ℝ) : ℝ := (List.zipWith (fun x y => x * y) a b).sum

/-- The `la` accumulator (sum of squares of the first components). -/
noncomputable def laAcc (a b : List ℝ) : ℝ := (List.zipWith (fun x _ => x * x) a b).sum

/-- The `lb` accumulator (sum of squares of the second components). -/
noncomputable def lbAcc (a b : List ℝ) : ℝ := (List.zipWith (fun _ y => y * y) a b).sum

/-- Source: `cosine`: `dot / (Math.sqrt(la) * Math.sqrt(lb) || 1)` — when the
denominator is zero the `|| 1` falls back to dividing by 1, i.e. the
result is the raw dot product. -/
noncomputable def cosine (a b : List ℝ) : ℝ :=
  if Real.sqrt (laAcc a b) * Real.sqrt (lbAcc a b) = 0 then dotAcc a b
  else dotAcc a b / (Real.sqrt (laAcc a b) * Real.sqrt (lbAcc a b))

/-! ### Data model (types.ts, indexer/index.ts) -/

/-- Source: `RHCEventSummary` (indexer/index.ts): the projection of one event. -/
structure RHCEventSummary where
  eventId : Str
  title : Option Str
  reasonType : Option Str
  policyFile : Str

/-- Source: `PolicyIndexEntry`: a policy file and its events. -/
structure PolicyIndexEntry where
  file : Str
  events : List RHCEventSummary

/-- Source: `ResourceConfigIndexEntry` (not used by the embedding core, kept
for the shape of `RHCIndex`). -/
structure ResourceConfigIndexEntry where
  file : Str
  resourceType : Option Str
  policyFile : Option Str
  regionCount : Option Nat

/-- Source: `RHCIndex`, the externally supplied content index. -/
structure RHCIndex where
  policies : List PolicyIndexEntry
  resourceConfigs : List ResourceConfigIndexEntry
  timestamp : Int

/-- The `meta` payload of a record: the auxiliary display fields the
builder actually writes (a projection of the free-form
`Record<string, any>`). -/
structure RecordMeta where
  file : Option Str := none
  eventId : Option Str := none
  title : Option Str := none
  reasonType : Option Str := none
  chunk : Option Nat := none

/-- Source: `EmbeddingRecord` (types.ts). -/
structure EmbeddingRecord where
  id : Str
  kind : Str
  resourceType : Option Str
  text : Str
  vector : List ℝ
  meta : RecordMeta

/-- Source: `EmbeddingIndexFile` (types.ts); the optional `sourceMtimeHash`
field is never written or read by the core and is omitted. -/
structure EmbeddingIndexFile where
  version : Int
  created : Str
  records : List EmbeddingRecord
  dims : Nat

/-- Source: `SimilarityResult` (types.ts). -/
structure SimilarityResult where
  id : Str
  score : ℝ
  meta : RecordMeta
  text : Str

/-- Source: `INDEX_VERSION = 2`. -/
def INDEX_VERSION : Int := 2

/-- Source: `DEFAULT_DIMS = 128`. -/
def DEFAULT_DIMS : Nat := 128

/-! ### Index store state (embeddings.ts lines 18-19, 107-121) -/

/-- The module-level mutable state of embeddings.ts:
`let inMemory: EmbeddingRecord[] | null = null; let dims = DEFAULT_DIMS`. -/
structure EmbState where
  inMemory : Option (List EmbeddingRecord)
  dims : Nat

/-- The persisted `.rhc/embeddings.json`: `none` = no workspace folder
or no file on disk (`!file || !fs.existsSync(file)`); `some none` =
file present but reading / JSON-parsing throws; `some (some f)` =
file parses to `f`. -/
abbrev DiskState := Option (Option EmbeddingIndexFile)

/-- Source: `ensureEmbeddingsLoaded` (embeddings.ts lines 107-121): returns the
boolean result together with the (possibly updated) module state. -/
def ensureEmbeddingsLoaded (st : EmbState) (disk : DiskState) : Bool × EmbState :=
  match st.inMemory with
  | some _ => (true, st)
  | none =>
    match disk with
    | none => (false, st)
    | some none => (false, st)
    | some (some parsed) =>
      if parsed.version ≠ INDEX_VERSION then (false, st)
      else (true, { inMemory := some parsed.records, dims := parsed.dims })

/-! ### Index builder (embeddings.ts lines 51-105) -/

/-- ASCII case-insensitive character comparison, for the `/i` flag. -/
def ciEq (a b : Char) : Bool := a.toLower == b.toLower

/-- Does `pat` match case-insensitively at the head of `l`? -/
def ciIsPrefix : Str → Str → Bool
  | [], _ => true
  | _ :: _, [] => false
  | p :: ps, c :: cs => ciEq p c && ciIsPrefix ps cs

/-- Index of the leftmost case-insensitive occurrence of `pat` in `l`
(the occurrence must lie entirely inside `l`). -/
def ciFind (pat : Str) : Str → Option Nat
  | [] => if pat.isEmpty then some 0 else none
  | c :: rest =>
    if ciIsPrefix pat (c :: rest) then some 0
    else (ciFind pat rest).map (fun n => n + 1)

/-- Source: `/PolicyFile_(.+)\.json$/i.exec(policy.file)` (embeddings.ts line
58): the match succeeds iff the file name ends case-insensitively with
`.json` and `PolicyFile_` occurs case-insensitively early enough to
leave at least one character for the greedy `(.+)` before that final
suffix; the captured group runs from the end of the leftmost such
occurrence to the start of the final `.json`. -/
def inferResourceType (file : Str) : Option Str :=
  if 5 ≤ file.length ∧ ciIsPrefix ".json".toList (file.drop (file.length - 5)) = true then
    match ciFind "PolicyFile_".toList (file.take (file.length - 6)) with
    | some s =>
      let rest := file.drop (s + 11)
      some (rest.take (rest.length - 5))
    | none => none
  else none

/-- Join non-empty strings with a single separator character. -/
def joinSep (sep : Char) : List Str → Str
  | [] => []
  | [l] => l
  | l :: rest => l ++ sep :: joinSep sep rest

/-- Source: `[...].filter(Boolean).join(' ')`: absent fields and empty strings
are both falsy and dropped; the rest are joined with single spaces. -/
def joinFields (fields : List (Option Str)) : Str :=
  joinSep ' ' (fields.filterMap (fun f => match f with
    | none => none
    | some s => if s.isEmpty then none else some s))

/-- Source: `ev.eventId || 'unknown'` (JS: the empty string is falsy). -/
def orUnknown (s : Str) : Str := if s.isEmpty then "unknown".toList else s

/-- Build-time environment: the provider resolved by the fresh
`createEmbedder()` call, the `rhc.index.includeDocs` setting, whether a
workspace folder (hence a storage path) exists, the contents of the
`documentation` directory (`none` when it is missing or not a
directory; a file maps to `none` when reading it throws), and the
timestamp `new Date().toISOString()`. -/
structure BuildEnv where
  provider : ProviderKind
  includeDocs : Bool
  hasWorkspace : Bool
  docDir : Option (List (Str × Option Str))
  created : Str

/-- Source: `chunkText` (embeddings.ts lines 137-146): fixed-size slices, last
one possibly shorter.  (With `size = 0` the source loop would never
terminate; the builder only calls it with 800.) -/
def chunkText (txt : Str) (size : Nat) : List Str :=
  if txt.isEmpty then []
  else if size = 0 then []
  else txt.take size :: chunkText (txt.drop size) size
termination_by txt.length
decreasing_by
  simp only [List.isEmpty_iff] at *
  have : txt.length ≠ 0 := fun hz => by
    cases txt
    · simp_all
    · simp at hz
  simp [List.length_drop]
  omega

/-- The records contributed by one policy entry (embeddings.ts lines
57-67): the `policy` record followed by one `event` record per event,
each embedded through the provider (`embedder.embed` batches are maps
of the provider's pseudo-embedding, see `providerEmbed`). -/
noncomputable def buildPolicyRecords (p : ProviderKind) (entry : PolicyIndexEntry) :
    List EmbeddingRecord :=
  let inferredRT := inferResourceType entry.file
  let policyText := joinFields [some entry.file, inferredRT]
  let policyRec : EmbeddingRecord :=
    { id := "policy:".toList ++ entry.file, kind := "policy".toList,
      resourceType := inferredRT, text := policyText,
      vector := ProviderCopy.pseudoEmbedVector policyText (providerDims p),
      meta := { file := some entry.file } }
  let eventText := fun (ev : RHCEventSummary) =>
    joinFields [some ev.eventId, ev.title, ev.reasonType, inferredRT]
  let eventRec := fun (ev : RHCEventSummary) =>
    { id := "event:".toList ++ entry.file ++ '#' :: orUnknown ev.eventId,
      kind := "event".toList, resourceType := inferredRT, text := eventText ev,
      vector := ProviderCopy.pseudoEmbedVector (eventText ev) (providerDims p),
      meta := { file := some entry.file, eventId := some ev.eventId,
                title := ev.title, reasonType := ev.reasonType } : EmbeddingRecord }
  policyRec :: entry.events.map eventRec

/-- The optional documentation records (embeddings.ts lines 69-93): one
`doc` record per 800-character chunk of each readable file; unreadable
files and a missing directory contribute nothing, silently. -/
noncomputable def buildDocRecords (p : ProviderKind) (env : BuildEnv) :
    List EmbeddingRecord :=
  if env.includeDocs && env.hasWorkspace then
    match env.docDir with
    | none => []
    | some files =>
      files.flatMap (fun fpair =>
        match fpair.2 with
        | none => []
        | some txt =>
          (chunkText txt 800).enum.map (fun ci =>
            { id := "doc:".toList ++ fpair.1 ++ '#' :: (toString ci.1).toList,
              kind := "doc".toList, resourceType := none, text := ci.2,
              vector := ProviderCopy.pseudoEmbedVector ci.2 (providerDims p),
              meta := { file := some fpair.1, chunk := some ci.1 } : EmbeddingRecord }))
  else []

/-- Source: `const effectiveDims = embedder.dims || DEFAULT_DIMS`. -/
def effectiveDims (p : ProviderKind) : Nat :=
  if providerDims p = 0 then DEFAULT_DIMS else providerDims p

/-- The body of `buildEmbeddingIndex` (embeddings.ts lines 51-105) once
the base index is present: computes the records, writes the payload to
the index file when a workspace storage path exists (lines 94-101), and
replaces the module state (`inMemory = records; dims = effectiveDims`).
The previous module state is discarded wholesale and therefore not a
parameter. -/
noncomputable def buildCore (idx : RHCIndex) (env : BuildEnv) (disk : DiskState) :
    EmbState × DiskState :=
  let records := idx.policies.flatMap (buildPolicyRecords env.provider)
    ++ buildDocRecords env.provider env
  let payload : EmbeddingIndexFile :=
    { version := INDEX_VERSION, created := env.created,
      records := records, dims := effectiveDims env.provider }
  ({ inMemory := some records, dims := effectiveDims env.provider },
   if env.hasWorkspace then some (some payload) else disk)

/-- Source: `buildEmbeddingIndex` including the guard
`if (!idx) throw new Error('Base index not built yet. ...')`. -/
noncomputable def buildEmbeddingIndex (idxOpt : Option RHCIndex) (env : BuildEnv)
    (disk : DiskState) : Except Str (EmbState × DiskState) :=
  match idxOpt with
  | none => .error "Base index not built yet. Run RHC: Refresh Index first.".toList
  | some idx => .ok (buildCore idx env disk)

/-! ### Similarity search (embeddings.ts lines 123-135) -/

/-- Source: `pseudoEmbed` (embeddings.ts lines 38-40): a thin wrapper around
the pseudo module's `pseudoEmbedVector`. -/
noncomputable def pseudoEmbed (text : Str) (dimsLocal : Nat) : List ℝ :=
  pseudoEmbedVector text dimsLocal

/-- The error thrown when no in-memory index exists. -/
def errNotLoaded : Str := "Embedding index not loaded".toList

/-- ASCII `toLowerCase`. -/
def lowerStr (s : Str) : Str := s.map Char.toLower

/-- The `continue` conditions of the search loop (embeddings.ts lines
128-129), negated: a record survives when `filterKind`, if supplied,
contains its kind, and when the case-insensitive resource-type test
passes.  The hint test only applies when both the hint and the record's
`resourceType` are truthy (non-empty) strings. -/
def passesFilters (filterKind : Option (List Str)) (hint : Option Str)
    (r : EmbeddingRecord) : Bool :=
  (match filterKind with
   | some fk => fk.contains r.kind
   | none => true) &&
  (match hint, r.resourceType with
   | some h, some rt =>
     if h.isEmpty || rt.isEmpty then true
     else lowerStr rt == lowerStr h
   | _, _ => true)

/-- The comparator `(a, b) => b.score - a.score`: `a` may precede `b`
iff `b.score ≤ a.score` (descending by score). -/
noncomputable def scoreLE (a b : SimilarityResult) : Bool := decide (b.score ≤ a.score)

/-- Source: `similaritySearch` (embeddings.ts lines 123-135): throws when no
in-memory index exists; otherwise embeds the query at the module's
`dims`, scores the surviving records, sorts descending by score and
takes the first `limit`. -/
noncomputable def similaritySearch (st : EmbState) (query : Str) (limit : Nat)
    (filterKind : Option (List Str)) (resourceTypeHint : Option Str) :
    Except Str (List SimilarityResult) :=
  match st.inMemory with
  | none => .error errNotLoaded
  | some recs =>
    let qv := pseudoEmbed query st.dims
    let out := (recs.filter (passesFilters filterKind resourceTypeHint)).map
      (fun r => { id := r.id, score := cosine qv r.vector,
                  meta := r.meta, text := r.text : SimilarityResult })
    .ok ((out.mergeSort scoreLE).take limit)

/-! ### RAG event discovery (rag.ts, `eventsForResourceType`) -/

/-- Source: `RagAnswer` (rag.ts). -/
structure RagAnswer where
  results : List SimilarityResult
  markdown : Str

/-- JS `String.prototype.trim` (whitespace stripped from both ends). -/
def trimJS (s : Str) : Str :=
  ((s.dropWhile isSpaceJS).reverse.dropWhile isSpaceJS).reverse

/-- JS `String.prototype.includes`: does `needle` occur contiguously in
`hay`? -/
def strIncludes (hay needle : Str) : Bool :=
  match hay with
  | [] => List.isPrefixOf needle []
  | _ :: t => List.isPrefixOf needle hay || strIncludes t needle

/-- The retention test of the post-filter (rag.ts line 97): keep a
result whose text contains (lowercased) some whitespace-delimited token
of the normalized phrase, or whose score exceeds 0.20. -/
noncomputable def ragKeep (normLowerTokens : List Str) (r : SimilarityResult) : Bool :=
  normLowerTokens.any (fun t => strIncludes (lowerStr r.text) t)
  || decide (r.score > (0.20 : ℝ))

/-- Decimal rendering of a number interpolated into a template. -/
def natStr (n : Nat) : Str := (toString n).toList

/-- The fallback banner (rag.ts line 102). -/
def fallbackHead (n : Nat) : Str :=
  "No strong token matches; showing top ".toList ++ natStr n
    ++ " similar event(s) (fallback).".toList

/-- The normal banner (rag.ts line 104). -/
def relatedHead (norm : Str) (n : Nat) : Str :=
  "Events potentially related to **".toList ++ norm ++ "** (top ".toList
    ++ natStr n ++ "):".toList

/-- An optional interpolated fragment guarded by a truthiness test. -/
def optPart (f : Option Str) (pre post : Str) : Str :=
  match f with
  | some s => if s.isEmpty then [] else pre ++ s ++ post
  | none => []

/-- One bullet line of the answer (rag.ts lines 106-113). -/
def entryLine (r : SimilarityResult) : Str :=
  "- **".toList
    ++ (match r.meta.eventId with
        | some e => orUnknown e
        | none => "unknown".toList)
    ++ "**".toList
    ++ optPart r.meta.title " — ".toList []
    ++ optPart r.meta.reasonType " (ReasonType: ".toList ")".toList
    ++ optPart r.meta.file " in `".toList "`".toList

/-- The no-results trailer (rag.ts line 115). -/
def noMatchLine : Str :=
  "No matching events found. Try refining the resource type phrasing.".toList

/-- Source: `eventsForResourceType` (rag.ts lines 89-118): trims the phrase,
appends `' events'`, searches `kind = event` records, applies the
token-overlap / score post-filter, and falls back to the unfiltered top
`min(5, n)` results when the filter keeps nothing. -/
noncomputable def eventsForResourceType (st : EmbState) (resourceTypePhrase : Str)
    (limit : Nat) : Except Str RagAnswer :=
  let norm := trimJS resourceTypePhrase
  let query := norm ++ " events".toList
  match similaritySearch st query limit (some ["event".toList]) none with
  | .error e => .error e
  | .ok sims =>
    let normLowerTokens := tokensOf (lowerStr norm)
    let filtered0 := sims.filter (ragKeep normLowerTokens)
    let filtered :=
      if filtered0.isEmpty then sims.take (min 5 sims.length) else filtered0
    let headLine :=
      if filtered0.isEmpty then fallbackHead (sims.take (min 5 sims.length)).length
      else relatedHead norm filtered0.length
    let lines := headLine :: filtered.map entryLine
      ++ (if filtered.isEmpty then [noMatchLine] else [])
    .ok { results := filtered, markdown := joinSep (Char.ofNat 10) lines }

/-! ### Lemmas about the pseudo-embedding -/

theorem length_bumpAt (v : List Nat) (i : Nat) : (bumpAt v i).length = v.length := by
  simp [bumpAt]

theorem sum_bumpAt (v : List Nat) (i : Nat) (h : i < v.length) :
    (bumpAt v i).sum = v.sum + 1 := by
  induction v generalizing i with
  | nil => simp at h
  | cons a t ih =>
    cases i with
    | zero =>
      simp only [bumpAt, List.set, List.getD_cons_zero, List.sum_cons]
      omega
    | succ n =>
      have ht : n < t.length := by simpa using h
      have ih2 := ih n ht
      simp only [bumpAt, List.set, List.getD_cons_succ, List.sum_cons] at ih2 ⊢
      omega

theorem length_foldl_bump (toks : List Str) (d : Nat) (v : List Nat) :
    (toks.foldl (fun v tok => bumpAt v (hashTok tok % d)) v).length = v.length := by
  induction toks generalizing v with
  | nil => rfl
  | cons t ts ih => simpa [length_bumpAt] using ih (bumpAt v (hashTok t % d))

theorem length_pseudoEmbedCounts (text : Str) (dims : Nat) :
    (pseudoEmbedCounts text dims).length = dims := by
  simpa [pseudoEmbedCounts] using
    length_foldl_bump (tokensOf (normalizeText text)) dims (List.replicate dims 0)

theorem sum_foldl_bump (toks : List Str) (d : Nat) (hd : 0 < d) (v : List Nat)
    (hv : v.length = d) :
    (toks.foldl (fun v tok => bumpAt v (hashTok tok % d)) v).sum = v.sum + toks.length := by
  induction toks generalizing v with
  | nil => simp
  | cons t ts ih =>
    have hi : hashTok t % d < v.length := by rw [hv]; exact Nat.mod_lt _ hd
    have hlen : (bumpAt v (hashTok t % d)).length = d := by rw [length_bumpAt]; exact hv
    have hrec := ih (bumpAt v (hashTok t % d)) hlen
    simp only [List.foldl_cons, List.length_cons]
    rw [hrec, sum_bumpAt v _ hi]
    omega

theorem sum_pseudoEmbedCounts (text : Str) (dims : Nat) (hd : 0 < dims) :
    (pseudoEmbedCounts text dims).sum = (tokensOf (normalizeText text)).length := by
  have := sum_foldl_bump (tokensOf (normalizeText text)) dims hd
    (List.replicate dims 0) (by simp)
  simpa [pseudoEmbedCounts] using this

theorem sumSq_eq_zero_iff (v : List Nat) : sumSq v = 0 ↔ v.sum = 0 := by
  simp only [sumSq, List.sum_eq_zero_iff, List.mem_map]
  constructor
  · intro h x hx
    have hxx := h (x * x) ⟨x, hx, rfl⟩
    exact (Nat.mul_eq_zero.mp hxx).elim id id
  · intro h y hy
    obtain ⟨x, hx, rfl⟩ := hy
    rw [h x hx]
    simp

theorem sum_sq_scaled (v : List Nat) (c : ℝ) :
    (v.map (fun (x : Nat) => ((x : ℝ) * c) ^ 2)).sum = (sumSq v : ℝ) * c ^ 2 := by
  induction v with
  | nil => simp [sumSq]
  | cons a t ih =>
    simp only [List.map_cons, List.sum_cons, sumSq] at ih ⊢
    rw [ih]
    push_cast
    ring

/-- Claim C1: for every input text `t` and dimensionality `d > 0`,
`pseudoEmbedVector t d` has length exactly `d`; when `t` normalizes to
zero tokens the result is the all-zero vector of length `d`, otherwise
its Euclidean norm is 1 (stated as: the sum of squares of its
components equals 1). -/
theorem pseudoEmbedVector_unit_or_zero (t : Str) (d : Nat) (hd : 0 < d) :
    (pseudoEmbedVector t d).length = d ∧
    (if tokensOf (normalizeText t) = [] then pseudoEmbedVector t d = List.replicate d 0
     else ((pseudoEmbedVector t d).map (fun x => x ^ 2)).sum = 1) := by
  refine ⟨by simp [pseudoEmbedVector, List.length_map, length_pseudoEmbedCounts], ?_⟩
  by_cases h : tokensOf (normalizeText t) = []
  · simp only [h, if_true]
    have hc : pseudoEmbedCounts t d = List.replicate d 0 := by
      simp [pseudoEmbedCounts, h]
    simp [pseudoEmbedVector, hc, List.map_replicate]
  · simp only [h, if_false]
    have hsum : (pseudoEmbedCounts t d).sum ≠ 0 := by
      rw [sum_pseudoEmbedCounts t d hd]
      simpa [List.length_eq_zero] using h
    have hs : sumSq (pseudoEmbedCounts t d) ≠ 0 := by
      rw [Ne, sumSq_eq_zero_iff]; exact hsum
    have hspos : (0 : ℝ) < (sumSq (pseudoEmbedCounts t d) : ℝ) := by
      exact_mod_cast Nat.pos_of_ne_zero hs
    have hsqrt : Real.sqrt (sumSq (pseudoEmbedCounts t d)) ^ 2
        = (sumSq (pseudoEmbedCounts t d) : ℝ) :=
      Real.sq_sqrt hspos.le
    have hinv : invOf (sumSq (pseudoEmbedCounts t d))
        = 1 / Real.sqrt (sumSq (pseudoEmbedCounts t d)) := by
      simp [invOf, hs]
    simp only [pseudoEmbedVector, List.map_map, Function.comp_def, hinv]
    rw [sum_sq_scaled]
    rw [div_pow, one_pow, hsqrt]
    field_simp

/-- Concrete instantiation of `pseudoEmbedVector_unit_or_zero` at
`t = "hi"`, `d = 2`. -/
theorem pseudoEmbedVector_unit_or_zero_witness :
    0 < 2 ∧
    ((pseudoEmbedVector ['h', 'i'] 2).length = 2 ∧
    (if tokensOf (normalizeText ['h', 'i']) = []
     then pseudoEmbedVector ['h', 'i'] 2 = List.replicate 2 0
     else ((pseudoEmbedVector ['h', 'i'] 2).map (fun x => x ^ 2)).sum = 1)) :=
  ⟨by decide, pseudoEmbedVector_unit_or_zero ['h', 'i'] 2 (by decide)⟩



/-! ### Helper lemmas for cosine similarity -/

theorem sumsq_nonneg (l : List ℝ) : 0 ≤ (l.map (fun x => x * x)).sum := by
  refine List.sum_nonneg ?_
  intro x hx
  obtain ⟨y, _, rfl⟩ := List.mem_map.mp hx
  exact mul_self_nonneg y

theorem laAcc_eq (a b : List ℝ) (h : a.length = b.length) :
    laAcc a b = (a.map (fun x => x * x)).sum := by
  induction a generalizing b with
  | nil => simp [laAcc]
  | cons x t ih =>
    cases b with
    | nil => simp at h
    | cons y s =>
      have hl : t.length = s.length := by simpa using h
      have ihs := ih s hl
      simp only [laAcc, List.zipWith_cons_cons, List.sum_cons, List.map_cons] at ihs ⊢
      rw [ihs]

theorem lbAcc_eq (a b : List ℝ) (h : a.length = b.length) :
    lbAcc a b = (b.map (fun x => x * x)).sum := by
  induction a generalizing b with
  | nil =>
    cases b with
    | nil => simp [lbAcc]
    | cons y s => simp at h
  | cons x t ih =>
    cases b with
    | nil => simp at h
    | cons y s =>
      have hl : t.length = s.length := by simpa using h
      have ihs := ih s hl
      simp only [lbAcc, List.zipWith_cons_cons, List.sum_cons, List.map_cons] at ihs ⊢
      rw [ihs]

theorem dotAcc_zero_right (a : List ℝ) (n : Nat) :
    dotAcc a (List.replicate n 0) = 0 := by
  induction a generalizing n with
  | nil => simp [dotAcc]
  | cons x t ih =>
    cases n with
    | zero => simp [dotAcc]
    | succ m =>
      have ihm := ih m
      simp only [dotAcc, List.replicate, List.zipWith_cons_cons, List.sum_cons] at ihm ⊢
      rw [ihm]
      simp

/-! ### Claim theorems -/

theorem PC_isSep_eq (c : Char) : ProviderCopy.isSep c = isSep c := rfl

theorem PC_camelExpand_eq : ∀ l : Str, ProviderCopy.camelExpand l = camelExpand l
  | [] => rfl
  | [_] => rfl
  | a :: b :: rest => by
    simp only [ProviderCopy.camelExpand, camelExpand]
    rw [PC_camelExpand_eq (b :: rest)]

theorem PC_collapseSepsAux_eq (p : Bool) (l : Str) :
    ProviderCopy.collapseSepsAux p l = collapseSepsAux p l := by
  induction l generalizing p with
  | nil => rfl
  | cons c rest ih =>
    simp only [ProviderCopy.collapseSepsAux, collapseSepsAux, PC_isSep_eq, ih]

theorem PC_stripNonAlnum_eq (l : Str) :
    ProviderCopy.stripNonAlnum l = stripNonAlnum l := rfl

theorem PC_normalizeText_eq (t : Str) :
    ProviderCopy.normalizeText t = normalizeText t := by
  simp only [ProviderCopy.normalizeText, normalizeText, ProviderCopy.collapseSeps,
    collapseSeps, PC_collapseSepsAux_eq, PC_camelExpand_eq, PC_stripNonAlnum_eq]

theorem PC_tokensOf_eq (l : Str) : ProviderCopy.tokensOf l = tokensOf l := rfl

theorem PC_pseudoEmbedCounts_eq (t : Str) (d : Nat) :
    ProviderCopy.pseudoEmbedCounts t d = pseudoEmbedCounts t d := by
  simp only [ProviderCopy.pseudoEmbedCounts, pseudoEmbedCounts, PC_normalizeText_eq,
    PC_tokensOf_eq]
  rfl

theorem PC_pseudoEmbedVector_eq (t : Str) (d : Nat) :
    ProviderCopy.pseudoEmbedVector t d = pseudoEmbedVector t d := by
  simp only [ProviderCopy.pseudoEmbedVector, pseudoEmbedVector, PC_pseudoEmbedCounts_eq]
  rfl

/-- Claim C10: the `pseudoEmbedVector` duplicated inside the provider
module computes, for every text and every dimensionality, exactly the
same vector as the pseudo module's `pseudoEmbedVector`; consequently
both provider variants' `embed` and the query-time embedding are values
of one and the same function. -/
theorem providerCopy_pseudoEmbedVector_eq (t : Str) (d : Nat) (p : ProviderKind)
    (texts : List Str) :
    ProviderCopy.pseudoEmbedVector t d = pseudoEmbedVector t d ∧
    providerEmbed p texts = texts.map (fun s => pseudoEmbedVector s (providerDims p)) := by
  refine ⟨PC_pseudoEmbedVector_eq t d, ?_⟩
  simp only [providerEmbed, PC_pseudoEmbedVector_eq]

/-- Claim C3: `ensureEmbeddingsLoaded` returns true and leaves the
state unchanged whenever an in-memory index exists (for every disk
content, i.e. without consulting the disk); with no in-memory index it
returns false and leaves the state untouched when the file is missing,
unreadable/unparseable, or carries a version other than
`INDEX_VERSION`; only on a version-matching parse does it adopt the
file's records and dims and return true. -/
theorem ensureEmbeddingsLoaded_spec (st : EmbState) (disk : DiskState) :
    (∀ recs, st.inMemory = some recs → ensureEmbeddingsLoaded st disk = (true, st)) ∧
    (st.inMemory = none → disk = none → ensureEmbeddingsLoaded st disk = (false, st)) ∧
    (st.inMemory = none → disk = some none → ensureEmbeddingsLoaded st disk = (false, st)) ∧
    (∀ f, st.inMemory = none → disk = some (some f) → f.version ≠ INDEX_VERSION →
      ensureEmbeddingsLoaded st disk = (false, st)) ∧
    (∀ f, st.inMemory = none → disk = some (some f) → f.version = INDEX_VERSION →
      ensureEmbeddingsLoaded st disk =
        (true, { inMemory := some f.records, dims := f.dims })) := by
  refine ⟨?_, ?_, ?_, ?_, ?_⟩
  · intro recs h; simp [ensureEmbeddingsLoaded, h]
  · intro h1 h2; subst h2; simp [ensureEmbeddingsLoaded, h1]
  · intro h1 h2; subst h2; simp [ensureEmbeddingsLoaded, h1]
  · intro f h1 h2 h3; subst h2; simp [ensureEmbeddingsLoaded, h1, h3]
  · intro f h1 h2 h3; subst h2; simp [ensureEmbeddingsLoaded, h1, h3]

/-- Concrete instantiation of `ensureEmbeddingsLoaded_spec`: with no
in-memory index and no file, the load returns false and changes
nothing. -/
theorem ensureEmbeddingsLoaded_spec_witness :
    ensureEmbeddingsLoaded ⟨none, 0⟩ none = (false, ⟨none, 0⟩) :=
  (ensureEmbeddingsLoaded_spec ⟨none, 0⟩ none).2.1 rfl rfl

/-- Claim C9: invoking `similaritySearch` with no in-memory index fails
with the explicit "not loaded" error; with an in-memory index present
it always returns a result list (never that error). -/
theorem similaritySearch_requires_loaded (q : Str) (k : Nat) (kf : Option (List Str))
    (rth : Option Str) (d : Nat) :
    similaritySearch ⟨none, d⟩ q k kf rth = .error errNotLoaded ∧
    ∀ recs, ∃ l, similaritySearch ⟨some recs, d⟩ q k kf rth = .ok l :=
  ⟨rfl, fun _ => ⟨_, rfl⟩⟩

/-- Claim C2: persisting the result of a build and then loading it
(`INDEX_VERSION` unchanged) from a fresh state yields exactly the state
the build held in memory — same records (ids, vectors, meta, in order)
and same dims. -/
theorem build_persist_load_roundTrip (idx : RHCIndex) (env : BuildEnv) (disk : DiskState)
    (d0 : Nat) (hw : env.hasWorkspace = true) :
    ∀ st' disk', buildEmbeddingIndex (some idx) env disk = .ok (st', disk') →
      ensureEmbeddingsLoaded ⟨none, d0⟩ disk' = (true, st') := by
  intro st' disk' h
  simp only [buildEmbeddingIndex, Except.ok.injEq] at h
  have h1 : (buildCore idx env disk).1 = st' := by rw [h]
  have h2 : (buildCore idx env disk).2 = disk' := by rw [h]
  subst h1
  subst h2
  simp [buildCore, hw, ensureEmbeddingsLoaded, INDEX_VERSION]

/-- Concrete instantiation of `build_persist_load_roundTrip` on an
empty content index with the local provider. -/
theorem build_persist_load_roundTrip_witness :
    (⟨ProviderKind.localPseudo, false, true, none, []⟩ : BuildEnv).hasWorkspace = true ∧
    ensureEmbeddingsLoaded ⟨none, 0⟩
        (buildCore ⟨[], [], 0⟩ ⟨ProviderKind.localPseudo, false, true, none, []⟩ none).2 =
      (true, (buildCore ⟨[], [], 0⟩ ⟨ProviderKind.localPseudo, false, true, none, []⟩ none).1) :=
  ⟨rfl, build_persist_load_roundTrip ⟨[], [], 0⟩
    ⟨ProviderKind.localPseudo, false, true, none, []⟩ none 0 rfl _ _ rfl⟩

/-- Counterexample to claim C7 as stated: on a concrete input with a
workspace present, `buildEmbeddingIndex` itself writes the persisted
index file — the disk goes from empty (`none`) to written — so
persistence is not left to a separate operation. -/
theorem buildEmbeddingIndex_persists_counterexample :
    buildEmbeddingIndex (some ⟨[], [], 0⟩)
        ⟨ProviderKind.localPseudo, false, true, none, []⟩ none =
      .ok (buildCore ⟨[], [], 0⟩ ⟨ProviderKind.localPseudo, false, true, none, []⟩ none) ∧
    (buildCore ⟨[], [], 0⟩ ⟨ProviderKind.localPseudo, false, true, none, []⟩ none).2 ≠ none :=
  ⟨rfl, by simp [buildCore]⟩

/-- Claim C7 (amended): the build's side effects are exactly replacing
the in-memory copy (records plus the provider's effective dims) and —
when a workspace storage path exists — persisting that same payload to
the index file itself; without a workspace the disk is untouched. -/
theorem buildEmbeddingIndex_effects (idx : RHCIndex) (env : BuildEnv) (disk : DiskState) :
    ∃ recs, buildEmbeddingIndex (some idx) env disk =
      .ok (⟨some recs, effectiveDims env.provider⟩,
           if env.hasWorkspace then
             some (some ⟨INDEX_VERSION, env.created, recs, effectiveDims env.provider⟩)
           else disk) :=
  ⟨_, rfl⟩

/-- Claim C4: `similaritySearch` embeds the query with `pseudoEmbed` at
the dims stored in the loaded state (the result below is phrased
entirely in terms of `pseudoEmbed q d` where `d` is the state's dims —
no provider dimensionality occurs), and hence, whenever every stored
vector has length `d`, the query vector's length equals every record
vector's length. -/
theorem similaritySearch_uses_index_dims (recs : List EmbeddingRecord) (d : Nat)
    (q : Str) (k : Nat) (kf : Option (List Str)) (rth : Option Str)
    (h : ∀ r ∈ recs, r.vector.length = d) :
    similaritySearch ⟨some recs, d⟩ q k kf rth =
      .ok ((((recs.filter (passesFilters kf rth)).map
        (fun r => { id := r.id, score := cosine (pseudoEmbed q d) r.vector,
                    meta := r.meta, text := r.text : SimilarityResult })).mergeSort
          scoreLE).take k) ∧
    (pseudoEmbed q d).length = d ∧
    ∀ r ∈ recs, (pseudoEmbed q d).length = r.vector.length := by
  refine ⟨rfl, ?_, ?_⟩
  · simp [pseudoEmbed, pseudoEmbedVector, List.length_map, length_pseudoEmbedCounts]
  · intro r hr
    rw [h r hr]
    simp [pseudoEmbed, pseudoEmbedVector, List.length_map, length_pseudoEmbedCounts]

/-- Concrete instantiation of `similaritySearch_uses_index_dims` on an
empty record set with `d = 3`. -/
theorem similaritySearch_uses_index_dims_witness :
    (∀ r ∈ ([] : List EmbeddingRecord), r.vector.length = 3) ∧
    (similaritySearch ⟨some [], 3⟩ ['a'] 1 none none =
      .ok ((((([] : List EmbeddingRecord).filter (passesFilters none none)).map
        (fun r => { id := r.id, score := cosine (pseudoEmbed ['a'] 3) r.vector,
                    meta := r.meta, text := r.text : SimilarityResult })).mergeSort
          scoreLE).take 1) ∧
    (pseudoEmbed ['a'] 3).length = 3 ∧
    ∀ r ∈ ([] : List EmbeddingRecord), (pseudoEmbed ['a'] 3).length = r.vector.length) :=
  ⟨by simp, similaritySearch_uses_index_dims [] 3 ['a'] 1 none none (by simp)⟩

/-- Claim C5: `cosine` never divides by zero — for equal-length vectors
it returns `dot / (‖a‖ · ‖b‖)` when both sums of squares are nonzero
and the raw dot product when either is zero; the score against the zero
vector is 0. -/
theorem cosine_no_div_zero (a b : List ℝ) (hlen : a.length = b.length) :
    ((a.map (fun x => x * x)).sum ≠ 0 → (b.map (fun x => x * x)).sum ≠ 0 →
      cosine a b = dotAcc a b /
        (Real.sqrt ((a.map (fun x => x * x)).sum) *
         Real.sqrt ((b.map (fun x => x * x)).sum))) ∧
    ((a.map (fun x => x * x)).sum = 0 ∨ (b.map (fun x => x * x)).sum = 0 →
      cosine a b = dotAcc a b) ∧
    (∀ n, b = List.replicate n 0 → cosine a b = 0) := by
  have hla := laAcc_eq a b hlen
  have hlb := lbAcc_eq a b hlen
  refine ⟨?_, ?_, ?_⟩
  · intro h1 h2
    have hA : (0 : ℝ) < (a.map (fun x => x * x)).sum :=
      lt_of_le_of_ne (sumsq_nonneg a) (Ne.symm h1)
    have hB : (0 : ℝ) < (b.map (fun x => x * x)).sum :=
      lt_of_le_of_ne (sumsq_nonneg b) (Ne.symm h2)
    have hd : Real.sqrt (laAcc a b) * Real.sqrt (lbAcc a b) ≠ 0 := by
      rw [hla, hlb]
      exact mul_ne_zero (Real.sqrt_ne_zero'.mpr hA) (Real.sqrt_ne_zero'.mpr hB)
    rw [cosine, if_neg hd, hla, hlb]
  · intro h
    have hd : Real.sqrt (laAcc a b) * Real.sqrt (lbAcc a b) = 0 := by
      rcases h with h | h
      · rw [hla, h]; simp
      · rw [hlb, h]; simp
    rw [cosine, if_pos hd]
  · intro n hb
    subst hb
    have hd0 : dotAcc a (List.replicate n 0) = 0 := dotAcc_zero_right a n
    by_cases hz : Real.sqrt (laAcc a (List.replicate n 0)) *
        Real.sqrt (lbAcc a (List.replicate n 0)) = 0
    · rw [cosine, if_pos hz, hd0]
    · rw [cosine, if_neg hz, hd0, zero_div]

/-- Concrete instantiation of `cosine_no_div_zero` at `a = [1]`,
`b = [0]`. -/
theorem cosine_no_div_zero_witness :
    ((([(1 : ℝ)]).map (fun x => x * x)).sum ≠ 0 →
        (([(0 : ℝ)]).map (fun x => x * x)).sum ≠ 0 →
      cosine [(1 : ℝ)] [(0 : ℝ)] = dotAcc [(1 : ℝ)] [(0 : ℝ)] /
        (Real.sqrt ((([(1 : ℝ)]).map (fun x => x * x)).sum) *
         Real.sqrt ((([(0 : ℝ)]).map (fun x => x * x)).sum))) ∧
    ((([(1 : ℝ)]).map (fun x => x * x)).sum = 0 ∨
        (([(0 : ℝ)]).map (fun x => x * x)).sum = 0 →
      cosine [(1 : ℝ)] [(0 : ℝ)] = dotAcc [(1 : ℝ)] [(0 : ℝ)]) ∧
    (∀ n, [(0 : ℝ)] = List.replicate n 0 → cosine [(1 : ℝ)] [(0 : ℝ)] = 0) :=
  cosine_no_div_zero [(1 : ℝ)] [(0 : ℝ)] rfl



/-! ### Sorting and post-filter helper lemmas -/

theorem scoreLE_trans (a b c : SimilarityResult) (h1 : scoreLE a b = true)
    (h2 : scoreLE b c = true) : scoreLE a c = true := by
  simp only [scoreLE, decide_eq_true_eq] at h1 h2 ⊢
  exact le_trans h2 h1

theorem scoreLE_total (a b : SimilarityResult) : (scoreLE a b || scoreLE b a) = true := by
  simp only [scoreLE, Bool.or_eq_true, decide_eq_true_eq]
  exact le_total b.score a.score

theorem isPrefixOf_joinSep_head (pfx x : Str) (sep : Char) (rest : List Str)
    (h : List.isPrefixOf pfx x = true) :
    List.isPrefixOf pfx (joinSep sep (x :: rest)) = true := by
  cases rest with
  | nil => simpa [joinSep] using h
  | cons y r =>
    rw [List.isPrefixOf_iff_prefix] at h ⊢
    have hj : joinSep sep (x :: y :: r) = x ++ sep :: joinSep sep (y :: r) := rfl
    rw [hj]
    exact h.trans (List.prefix_append x _)

theorem isPrefixOf_fallbackHead (n : Nat) :
    List.isPrefixOf "No strong token matches".toList (fallbackHead n) = true := by
  have hp : List.isPrefixOf "No strong token matches".toList
      "No strong token matches; showing top ".toList = true := by decide
  rw [List.isPrefixOf_iff_prefix] at hp ⊢
  show "No strong token matches".toList <+:
    "No strong token matches; showing top ".toList ++ natStr n
      ++ " similar event(s) (fallback).".toList
  refine hp.trans ?_
  rw [List.append_assoc]
  exact List.prefix_append _ _

/-- Claim C6: for every loaded index, query, filters and limit `k`, the
result of `similaritySearch` is sorted in non-increasing score order and
has length `min k (size of the filtered pool)` — in particular at most
`k`, and fewer when the surviving pool is smaller. -/
theorem similaritySearch_sorted_and_limited (recs : List EmbeddingRecord) (d : Nat)
    (q : Str) (k : Nat) (kf : Option (List Str)) (rth : Option Str) :
    ∃ l, similaritySearch ⟨some recs, d⟩ q k kf rth = .ok l ∧
      List.Pairwise (fun a b => b.score ≤ a.score) l ∧
      l.length = min k (recs.filter (passesFilters kf rth)).length ∧
      l.length ≤ k := by
  refine ⟨_, rfl, ?_, ?_, ?_⟩
  · have hsorted := List.sorted_mergeSort scoreLE_trans scoreLE_total
      ((recs.filter (passesFilters kf rth)).map
        (fun r => { id := r.id, score := cosine (pseudoEmbed q d) r.vector,
                    meta := r.meta, text := r.text : SimilarityResult }))
    have himp : List.Pairwise (fun a b : SimilarityResult => b.score ≤ a.score)
        (((recs.filter (passesFilters kf rth)).map
          (fun r => { id := r.id, score := cosine (pseudoEmbed q d) r.vector,
                      meta := r.meta, text := r.text : SimilarityResult })).mergeSort
            scoreLE) :=
      hsorted.imp (fun hab => of_decide_eq_true hab)
    exact himp.take
  · simp [List.length_take, List.length_mergeSort, List.length_map]
  · simp [List.length_take, List.length_mergeSort, List.length_map]

/-- Claim C8: `eventsForResourceType` appends `' events'` to the
trimmed phrase before searching; given the search's results `sims`, it
keeps exactly those whose text contains (lowercased) a whitespace token
of the phrase or whose score exceeds 0.20, and when that filter keeps
nothing it returns the first `min(5, n)` unfiltered results with the
low-confidence fallback banner leading the markdown. -/
theorem eventsForResourceType_postFilter (recs : List EmbeddingRecord) (d : Nat)
    (phrase : Str) (k : Nat) (sims : List SimilarityResult)
    (h : similaritySearch ⟨some recs, d⟩ (trimJS phrase ++ " events".toList) k
      (some ["event".toList]) none = .ok sims) :
    ∃ ans, eventsForResourceType ⟨some recs, d⟩ phrase k = .ok ans ∧
      (sims.filter (ragKeep (tokensOf (lowerStr (trimJS phrase)))) ≠ [] →
        ans.results = sims.filter (ragKeep (tokensOf (lowerStr (trimJS phrase))))) ∧
      (sims.filter (ragKeep (tokensOf (lowerStr (trimJS phrase)))) = [] →
        ans.results = sims.take (min 5 sims.length) ∧
        List.isPrefixOf "No strong token matches".toList ans.markdown = true) := by
  simp only [eventsForResourceType]
  rw [h]
  refine ⟨_, rfl, ?_, ?_⟩
  · intro hne
    have he : (sims.filter (ragKeep (tokensOf (lowerStr (trimJS phrase))))).isEmpty
        = false := by
      cases hE : (sims.filter (ragKeep (tokensOf (lowerStr (trimJS phrase))))).isEmpty with
      | false => rfl
      | true => exact absurd (List.isEmpty_iff.mp hE) hne
    simp [he]
  · intro hnil
    have he : (sims.filter (ragKeep (tokensOf (lowerStr (trimJS phrase))))).isEmpty
        = true := List.isEmpty_iff.mpr hnil
    refine ⟨by simp [he], ?_⟩
    simp only [he, if_true]
    exact isPrefixOf_joinSep_head _ _ _ _ (isPrefixOf_fallbackHead _)

/-- Concrete instantiation of `eventsForResourceType_postFilter` on an
empty index. -/
theorem eventsForResourceType_postFilter_witness :
    ∃ ans, eventsForResourceType ⟨some [], 1⟩ [] 0 = .ok ans ∧
      (([] : List SimilarityResult).filter (ragKeep (tokensOf (lowerStr (trimJS [])))) ≠ [] →
        ans.results =
          ([] : List SimilarityResult).filter (ragKeep (tokensOf (lowerStr (trimJS []))))) ∧
      (([] : List SimilarityResult).filter (ragKeep (tokensOf (lowerStr (trimJS [])))) = [] →
        ans.results = ([] : List SimilarityResult).take
          (min 5 ([] : List SimilarityResult).length) ∧
        List.isPrefixOf "No strong token matches".toList ans.markdown = true) :=
  eventsForResourceType_postFilter [] 1 [] 0 [] rfl

end RHC
